import Mathlib

/-!
Verification of the recipe-crawler core of the `recipe` repository.

The repository bundles several revisions of the same crawler module
(`src/server/crawler.ts` and the unnamed source files
`src/unnamed/part_006`, `part_007`, `part_009`, `part_010`).  Each
definition below is a shallow embedding of one concrete function of one
concrete revision; its doc comment names the file and line range it was
translated from.  JavaScript strings are modelled by `String`, DOM query
results by the text they produce (`Option String` for a single
`querySelector`, `List (Option String)` for a `querySelectorAll`), the
database by explicit lists of rows, and `fetch` by environment functions
passed in as parameters.
-/

set_option linter.unusedVariables false

/-- Membership test for the JavaScript regular-expression class `\s`
(also the character set removed by `String.prototype.trim`):
space, tab, line feed, vertical tab, form feed, carriage return,
NBSP, and the Unicode space separators. -/
def isJsSpace (c : Char) : Bool :=
  c = ' ' || c = '\t' || c = '\n' || c = '\r' ||
  c.toNat = 11 || c.toNat = 12 || c.toNat = 160 || c.toNat = 5760 ||
  (8192 ≤ c.toNat && c.toNat ≤ 8202) || c.toNat = 8232 || c.toNat = 8233 ||
  c.toNat = 8239 || c.toNat = 8287 || c.toNat = 12288 || c.toNat = 65279

/-- The cleanup `url.trim().replace(/\s+/g, '')` performed at the top of
`normalizeUrl` (src/unnamed/part_010 line 80, src/server/crawler.ts
line 51): trimming followed by deleting every remaining run of
whitespace is the same as deleting every `\s` character. -/
def stripWs (s : String) : String :=
  String.mk (s.data.filter (fun c => !isJsSpace c))

/-- Boolean prefix test on character lists, structured so that an empty
pattern reduces to `true` without inspecting the other list. -/
def isPrefixChars : List Char → List Char → Bool
  | [], _ => true
  | a :: as, m =>
    match m with
    | [] => false
    | b :: bs => a == b && isPrefixChars as bs

/-- Model of `String.prototype.startsWith`. -/
def startsWithStr (s p : String) : Bool :=
  isPrefixChars p.data s.data

/-- Whether a string contains no `\s` whitespace character at all (a
string with interior whitespace is not a URL). -/
def noWhitespace (s : String) : Bool :=
  s.data.all (fun c => !isJsSpace c)

/-- Characters allowed after the first character of a URL scheme. -/
def isSchemeChar (c : Char) : Bool :=
  c.isAlphanum || c = '+' || c = '-' || c = '.'

/-- Helper for `relHasScheme`: scans scheme characters until a colon. -/
def hasColonAfter : List Char → Bool
  | [] => false
  | c :: rest => if c = ':' then true else if isSchemeChar c then hasColonAfter rest else false

/-- Whether a reference string begins with a URL scheme followed by a
colon, in which case the WHATWG `URL` constructor treats it as an
absolute URL rather than resolving it against the base. -/
def relHasScheme : List Char → Bool
  | [] => false
  | c :: rest => c.isAlpha && hasColonAfter rest

/-- The components of a parsed base URL.  Model of the `URL` object for
the simple `scheme://host/path` URLs the crawler works with (no
userinfo, port, query or fragment). -/
structure UrlParts where
  scheme : List Char
  host : List Char
  path : List Char

/-- Model of `new URL(baseUrl)`: parse `scheme://host/path`, failing
(the constructor throws) when the scheme or host is missing or
malformed.  A missing path serializes as `/`. -/
def parseUrl (s : String) : Option UrlParts :=
  let l := s.data
  let scheme := l.takeWhile (fun c => c ≠ ':')
  match l.dropWhile (fun c => c ≠ ':') with
  | ':' :: '/' :: '/' :: rest =>
    match scheme with
    | [] => none
    | c :: _ =>
      if c.isAlpha && scheme.all isSchemeChar then
        let host := rest.takeWhile (fun c => c ≠ '/')
        let path := rest.dropWhile (fun c => c ≠ '/')
        if host = [] then none
        else some ⟨scheme, host, if path = [] then ['/'] else path⟩
      else none
  | _ => none

/-- Split a character list at every `/` (the separators are dropped and
empty segments kept, like `String.prototype.split`). -/
def splitSlash : List Char → List (List Char)
  | [] => [[]]
  | c :: rest =>
    match splitSlash rest with
    | [] => [[]]
    | seg :: segs => if c = '/' then [] :: seg :: segs else (c :: seg) :: segs

/-- Dot-segment removal of RFC 3986 §5.2.4, the normalization the
WHATWG `URL` constructor applies to a resolved path. -/
def removeDotSegments (p : List Char) : List Char :=
  match splitSlash p with
  | [] => p
  | _ :: segs =>
    let out := segs.foldl
      (fun acc seg =>
        if seg = ['.'] then acc
        else if seg = ['.', '.'] then acc.dropLast
        else acc ++ [seg])
      ([] : List (List Char))
    '/' :: List.intercalate ['/'] out

/-- The directory part of a path: everything up to and including the
last `/` (RFC 3986 merge step). -/
def dirOfPath (p : List Char) : List Char :=
  (p.reverse.dropWhile (fun c => c ≠ '/')).reverse

/-- Serialize a base URL's scheme and host with a replaced path. -/
def serializeUrl (b : UrlParts) (path : List Char) : String :=
  String.mk (b.scheme ++ (':' :: '/' :: '/' :: (b.host ++ path)))

/-- Model of `new URL(rel, base).toString()` for a reference that has no
leading `/` (those are handled by earlier branches of `normalizeUrl`):
a reference with its own scheme passes through, otherwise the reference
is merged onto the base path and dot-segments are removed. -/
def resolveRel (b : UrlParts) (rel : List Char) : String :=
  if relHasScheme rel then String.mk rel
  else serializeUrl b (removeDotSegments (dirOfPath b.path ++ rel))

/-- The branch chain of `normalizeUrl`, src/unnamed/part_010 lines
81-107 (identical in part_006 lines 56-83 and part_007 lines 56-83),
applied to the already-cleaned URL: reject empty; pass `data:` URIs and
absolute `http://`/`https://` URLs through; prefix protocol-relative
URLs with the base scheme; prefix root-relative URLs with the base
origin; otherwise resolve relatively.  Any parse failure yields the
empty-string rejection sentinel (the `catch` branch). -/
def normalizeClean (cleanUrl : String) (baseUrl : String) : String :=
  if cleanUrl = ("") then ("")
  else if startsWithStr cleanUrl ("data:") then cleanUrl
  else if startsWithStr cleanUrl ("http://") || startsWithStr cleanUrl ("https://") then cleanUrl
  else if startsWithStr cleanUrl ("//") then
    match parseUrl baseUrl with
    | some b => String.mk (b.scheme ++ (':' :: cleanUrl.data))
    | none => ("")
  else if startsWithStr cleanUrl ("/") then
    match parseUrl baseUrl with
    | some b => String.mk (b.scheme ++ (':' :: '/' :: '/' :: b.host) ++ cleanUrl.data)
    | none => ("")
  else
    match parseUrl baseUrl with
    | some b => resolveRel b cleanUrl.data
    | none => ("")

/-- The whole `normalizeUrl` of src/unnamed/part_010 lines 78-108: the
`cleanUrl` computation of line 80 followed by the branch chain. -/
def normalizeUrl (url : String) (baseUrl : String) : String :=
  normalizeClean (stripWs url) baseUrl

namespace Crawler

/-- The branch chain of the `normalizeUrl` revision of
src/server/crawler.ts lines 48-79: identical to `normalizeClean` above
except that it has no explicit `data:` branch (a `data:` URI still
passes through, via the scheme-carrying case of relative resolution). -/
def normalizeClean (cleanUrl : String) (baseUrl : String) : String :=
  if cleanUrl = ("") then ("")
  else if startsWithStr cleanUrl ("http://") || startsWithStr cleanUrl ("https://") then cleanUrl
  else if startsWithStr cleanUrl ("//") then
    match parseUrl baseUrl with
    | some b => String.mk (b.scheme ++ (':' :: cleanUrl.data))
    | none => ("")
  else if startsWithStr cleanUrl ("/") then
    match parseUrl baseUrl with
    | some b => String.mk (b.scheme ++ (':' :: '/' :: '/' :: b.host) ++ cleanUrl.data)
    | none => ("")
  else
    match parseUrl baseUrl with
    | some b => resolveRel b cleanUrl.data
    | none => ("")

/-- The whole `normalizeUrl` of src/server/crawler.ts lines 48-79. -/
def normalizeUrl (url : String) (baseUrl : String) : String :=
  normalizeClean (stripWs url) baseUrl

end Crawler

/-- Model of `String.prototype.trim` (which removes the same `\s`-ish
set of characters from both ends). -/
def jsTrim (s : String) : String :=
  String.mk (((s.data.dropWhile isJsSpace).reverse.dropWhile isJsSpace).reverse)

/-- Model of `String.prototype.toLowerCase` for the ASCII strings the
crawler compares. -/
def lowerStr (s : String) : String :=
  String.mk (s.data.map Char.toLower)

/-- Model of `String.prototype.includes`: `pat` occurs as a contiguous
substring. -/
def containsSub (pat : List Char) : List Char → Bool
  | [] => pat.isEmpty
  | c :: rest => isPrefixChars pat (c :: rest) || containsSub pat rest

/-- Whether the string has two consecutive digit characters; this is
exactly when the regular expression `/\d{4}|\d{2}/` matches. -/
def hasTwoConsecutiveDigits : List Char → Bool
  | [] => false
  | [_] => false
  | a :: b :: rest => (a.isDigit && b.isDigit) || hasTwoConsecutiveDigits (b :: rest)

/-- JavaScript `parseInt` on a non-empty digit run. -/
def digitsToNat (l : List Char) : Nat :=
  l.foldl (fun acc c => acc * 10 + (c.toNat - 48)) 0

/-- First-match semantics of the regular expressions
`/(\d+)\s*h(our)?s?/i` and `/(\d+)\s*m(in(ute)?)?s?/i` of
`parseTimeToMinutes` (src/unnamed/part_010 lines 274-275), abstracted
over the unit letter: scan left to right for a digit run followed by
optional whitespace and the unit letter, returning the captured number.
(Backtracking inside `\d+` can never produce a match that this scan
misses, because a shortened digit run is followed by another digit.) -/
def findUnitNumber (isUnit : Char → Bool) : List Char → Option Nat
  | [] => none
  | c :: cs =>
    if c.isDigit then
      let run := (c :: cs).takeWhile Char.isDigit
      match ((c :: cs).dropWhile Char.isDigit).dropWhile isJsSpace with
      | d :: _ => if isUnit d then some (digitsToNat run) else findUnitNumber isUnit cs
      | [] => findUnitNumber isUnit cs
    else findUnitNumber isUnit cs

/-- First match of `/\d+/`: the maximal digit run starting at the first
digit of the string. -/
def firstNumber : List Char → Option Nat
  | [] => none
  | c :: cs =>
    if c.isDigit then some (digitsToNat ((c :: cs).takeWhile Char.isDigit))
    else firstNumber cs

/-- Duration parser `parseTimeToMinutes`, src/unnamed/part_010 lines
272-292: hour and minute tokens are matched case-insensitively and
summed into total minutes; if neither matched, a bare integer is taken
as minutes; otherwise 0. -/
def parseTimeToMinutes (timeStr : String) : Nat :=
  let hours := findUnitNumber (fun d => d.toLower = 'h') timeStr.data
  let minutes := findUnitNumber (fun d => d.toLower = 'm') timeStr.data
  match hours, minutes with
  | none, none => (firstNumber timeStr.data).getD 0
  | _, _ => (hours.getD 0) * 60 + minutes.getD 0

/-- JavaScript `Set.prototype.add` on an insertion-ordered set
represented as a duplicate-free list. -/
def setAdd (acc : List String) (x : String) : List String :=
  if x ∈ acc then acc else acc ++ [x]

namespace P6

/-- The recipe-likelihood filter `isRecipeUrl` of `findRecipeLinks`,
src/unnamed/part_006 lines 163-168: the lower-cased normalized URL must
contain one of the keywords, or the URL must match `/\d{4}|\d{2}/`. -/
def isRecipeUrl (u : String) : Bool :=
  let lu := (lowerStr u).data
  containsSub ("recipe").data lu || containsSub ("recipes").data lu ||
  containsSub ("cooking").data lu || containsSub ("food").data lu ||
  hasTwoConsecutiveDigits u.data

/-- The link loop of `findRecipeLinks`, src/unnamed/part_006 lines
154-177: for each matched anchor read `href`, normalize it, drop
rejections, keep it when `isRecipeUrl` holds, collecting into a `Set`. -/
def collectLinks (baseUrl : String) : List (Option String) → List String → List String
  | [], acc => acc
  | none :: rest, acc => collectLinks baseUrl rest acc
  | some href :: rest, acc =>
    let n := normalizeUrl href baseUrl
    if n = ("") then collectLinks baseUrl rest acc
    else if isRecipeUrl n then collectLinks baseUrl rest (setAdd acc n)
    else collectLinks baseUrl rest acc

/-- The link one loop iteration of `collectLinks` would insert, if any
(proof-convenience reformulation of the loop body's guards). -/
def linkCandidate (baseUrl : String) (o : Option String) : Option String :=
  match o with
  | none => none
  | some href =>
    let n := normalizeUrl href baseUrl
    if n = ("") then none
    else if isRecipeUrl n then some n else none

/-- `findRecipeLinks`, src/unnamed/part_006 lines 148-184, applied to
the anchors matched by the configured selector (each modelled by its
`href` attribute, `none` when absent). -/
def findRecipeLinks (anchors : List (Option String)) (baseUrl : String) : List String :=
  collectLinks baseUrl anchors []

end P6

namespace P7

/-- Test of the regular expression `/^(step|[0-9]+\.?)$/i` used by the
instruction filter, src/unnamed/part_007 line 223: the whole string is
`step` (case-insensitively) or a digit run with an optional trailing
dot. -/
def isStepToken (s : String) : Bool :=
  lowerStr s = ("step") ||
  (s.data.takeWhile Char.isDigit ≠ [] &&
   (s.data.dropWhile Char.isDigit = [] || s.data.dropWhile Char.isDigit = ['.']))

/-- The body of the `forEach` ingredient loop of `crawlRecipe`,
src/unnamed/part_007 lines 209-214: trim the element's text and insert
it into the set when it is truthy and longer than one character. -/
def ingStep (acc : List String) (o : Option String) : List String :=
  match o.map jsTrim with
  | some text => if text ≠ ("") ∧ 1 < text.length then setAdd acc text else acc
  | none => acc

/-- The element `ingStep` would insert for one matched element, if any
(proof-convenience reformulation of the loop body's guard). -/
def addCandidate (o : Option String) : Option String :=
  match o.map jsTrim with
  | some text => if text ≠ ("") ∧ 1 < text.length then some text else none
  | none => none

/-- Ingredient extraction of `crawlRecipe`, src/unnamed/part_007 lines
207-215: trim each matched element's text, keep it when truthy and
longer than one character, inserting into a `Set` (deduplication,
insertion order). -/
def extractIngredients (texts : List (Option String)) : List String :=
  texts.foldl ingStep []

/-- Instruction extraction of `crawlRecipe`, src/unnamed/part_007 lines
219-224: trim each matched element's text, keep it when truthy, longer
than five characters and not a bare step-number token; no
deduplication. -/
def extractInstructions (texts : List (Option String)) : List String :=
  (texts.map (Option.map jsTrim)).filterMap
    (fun o =>
      match o with
      | none => none
      | some text =>
        if text ≠ ("") ∧ 5 < text.length ∧ isStepToken text = false then some text else none)

end P7

/-- JavaScript truthiness of a possibly-`undefined` string: `undefined`
and the empty string are falsy. -/
def jsTruthyStr : Option String → Bool
  | some s => !(s == (""))
  | none => false

/-- JavaScript `a || b` on possibly-`undefined` strings, as used by the
fallback chains of `crawlRecipe`. -/
def jsOrElse : Option String → Option String → Option String
  | some s, b => if s = ("") then b else some s
  | none, b => b

/-- The pipeline stage `.filter((text): text is string => Boolean(text))`
applied after `.map(el => el.textContent?.trim())`: drops `undefined`
and empty strings. -/
def jsFilterTruthy (l : List (Option String)) : List String :=
  l.filterMap (fun o =>
    match o with
    | some s => if s = ("") then none else some s
    | none => none)

namespace Crawler

/-- The `Selectors` interface of src/server/crawler.ts lines 7-13. -/
structure Selectors where
  recipeLinks : String
  title : String
  description : String
  ingredients : String
  instructions : String
deriving DecidableEq

/-- A fetched and parsed recipe-detail page, seen through the queries
`crawlRecipe` (src/server/crawler.ts lines 122-199) makes against it:
the text content of the first element matched by each single-element
selector (`none` when nothing matched), the attribute content of the
meta-description, the text contents of every element matched by the
ingredient and instruction selectors, and the text contents matched by
each of the five alternative instruction selectors of lines 157-163,
in order. -/
structure Page where
  titleText : Option String
  h1Text : Option String
  descriptionText : Option String
  metaDescriptionContent : Option String
  recipeSummaryText : Option String
  itempropDescriptionText : Option String
  ingredientTexts : List (Option String)
  instructionTexts : List (Option String)
  altInstructionTexts : List (List (Option String))
deriving DecidableEq

/-- The record returned by a successful `crawlRecipe`
(src/server/crawler.ts lines 188-194). -/
structure ExtractedRecipe where
  title : String
  description : String
  ingredients : List String
  instructions : List String
  sourceUrl : String
deriving DecidableEq

/-- The title fallback chain of src/server/crawler.ts lines 131-132. -/
def titleOf (p : Page) : Option String :=
  jsOrElse (p.titleText.map jsTrim) (p.h1Text.map jsTrim)

/-- The description fallback chain of src/server/crawler.ts
lines 135-138. -/
def descriptionOf (p : Page) : Option String :=
  jsOrElse (p.descriptionText.map jsTrim)
    (jsOrElse (p.metaDescriptionContent.map jsTrim)
      (jsOrElse (p.recipeSummaryText.map jsTrim) (p.itempropDescriptionText.map jsTrim)))

/-- Ingredient extraction of src/server/crawler.ts lines 141-146. -/
def ingredientsOf (p : Page) : List String :=
  (jsFilterTruthy (p.ingredientTexts.map (Option.map jsTrim))).filter (fun t => 1 < t.length)

/-- First non-empty result among the alternative instruction selectors
(the `break` of the loop at src/server/crawler.ts lines 165-176; if all
alternatives are empty the loop leaves the empty list). -/
def firstNonemptyList : List (List String) → List String
  | [] => []
  | l :: rest => if l.isEmpty then firstNonemptyList rest else l

/-- Instruction extraction with fallbacks, src/server/crawler.ts
lines 149-177. -/
def instructionsOf (p : Page) : List String :=
  let primary := jsFilterTruthy (p.instructionTexts.map (Option.map jsTrim))
  if primary.isEmpty then
    firstNonemptyList (p.altInstructionTexts.map (fun l => jsFilterTruthy (l.map (Option.map jsTrim))))
  else primary

/-- The extraction and validation core of `crawlRecipe`,
src/server/crawler.ts lines 122-199, applied to an already fetched and
parsed page (a terminal fetch failure also yields `null`, via the
`catch`; see `crawlRecipeAt`). -/
def crawlRecipe (url : String) (p : Page) : Option ExtractedRecipe :=
  if jsTruthyStr (titleOf p) = false ∨ jsTruthyStr (descriptionOf p) = false ∨
      ingredientsOf p = [] ∨ instructionsOf p = [] then none
  else
    some ⟨(titleOf p).getD (""), (descriptionOf p).getD (""),
      ingredientsOf p, instructionsOf p, url⟩

/-- The recipe-likelihood test of `findRecipeLinks`,
src/server/crawler.ts lines 97-99. -/
def isRecipeUrl (u : String) : Bool :=
  containsSub ("/recipe").data u.data || containsSub ("/recipes").data u.data ||
  containsSub ("cast-iron").data u.data

/-- `findRecipeLinks`, src/server/crawler.ts lines 81-120, applied to
the anchors matched by the configured selector (each modelled by its
effective `href` candidate, `none` when absent). -/
def findRecipeLinks (anchors : List (Option String)) (baseUrl : String) : List String :=
  anchors.filterMap (fun h =>
    match h with
    | none => none
    | some href =>
      let n := Crawler.normalizeUrl href baseUrl
      if n = ("") then none
      else if isRecipeUrl n then some n else none)

/-- A row of the `crawlerConfigs` table (src/db/schema.ts), with
timestamps as natural numbers. -/
structure CrawlerConfig where
  id : Nat
  siteName : String
  siteUrl : String
  selectors : Selectors
  enabled : Bool
  lastCrawl : Option Nat
deriving DecidableEq

/-- A row of the `recipes` table as inserted by `runCrawler`
(src/server/crawler.ts lines 249-257). -/
structure RecipeRow where
  title : String
  description : String
  ingredients : List String
  instructions : List String
  sourceUrl : String
  cookwareType : String
  difficulty : String
  prepTime : Nat
  cookTime : Nat
  servings : Nat
  sourceName : String
deriving DecidableEq

/-- The durable store the crawler reads and writes. -/
structure DB where
  recipes : List RecipeRow
  configs : List CrawlerConfig
deriving DecidableEq

/-- The external world of one crawl run: `listingAnchors u` is the
parsed listing document of site URL `u` seen through
`querySelectorAll` (selector to matched anchors), or `none` when
`fetchWithRetry` exhausted its attempts and threw; `detailPage u sel`
is the parsed detail page at `u` seen through the selector record
`sel`, or `none` when its fetch terminally failed; `now` is the run
timestamp `new Date()`. -/
structure CrawlEnv where
  listingAnchors : String → Option (String → List (Option String))
  detailPage : String → Selectors → Option Page
  now : Nat

/-- The insert of src/server/crawler.ts lines 249-257: the extracted
record plus the hard-coded defaults and the site's name. -/
def mkRow (r : ExtractedRecipe) (siteName : String) : RecipeRow :=
  ⟨r.title, r.description, r.ingredients, r.instructions, r.sourceUrl,
   ("skillet"), ("medium"), 30, 30, 4, siteName⟩

/-- The dedup query of src/server/crawler.ts lines 232-241: does a row
with this `(title, sourceName)` pair exist? -/
def hasKey (rs : List RecipeRow) (t sn : String) : Bool :=
  rs.any (fun r => r.title == t && r.sourceName == sn)

/-- `crawlRecipe` including its fetch: a terminal fetch failure is
caught and yields `null`. -/
def crawlRecipeAt (env : CrawlEnv) (url : String) (sel : Selectors) : Option ExtractedRecipe :=
  match env.detailPage url sel with
  | none => none
  | some p => crawlRecipe url p

/-- The body of the per-link loop of `runCrawler`,
src/server/crawler.ts lines 226-261: extract, dedup-check, insert or
skip. -/
def saveLink (env : CrawlEnv) (cfg : CrawlerConfig) (rs : List RecipeRow) (link : String) : List RecipeRow :=
  match crawlRecipeAt env link cfg.selectors with
  | none => rs
  | some data => if hasKey rs data.title cfg.siteName then rs else rs ++ [mkRow data cfg.siteName]

/-- The links discovered for one site; empty when the listing fetch
terminally failed (in which case the site's iteration is aborted by the
caught exception before reaching this point). -/
def siteLinks (env : CrawlEnv) (cfg : CrawlerConfig) : List String :=
  match env.listingAnchors cfg.siteUrl with
  | none => []
  | some doc => findRecipeLinks (doc cfg.selectors.recipeLinks) cfg.siteUrl

/-- The recipe rows after the per-link loop of one site. -/
def siteRecipes (env : CrawlEnv) (rs : List RecipeRow) (cfg : CrawlerConfig) : List RecipeRow :=
  (siteLinks env cfg).foldl (saveLink env cfg) rs

/-- One iteration of the per-site loop of `runCrawler`,
src/server/crawler.ts lines 211-277: a terminal listing-fetch failure
jumps to the `catch` (line 273) and leaves the store untouched — in
particular `lastCrawl` is not reached; otherwise all discovered links
are processed and then the site's `lastCrawl` is set to now. -/
def processSite (env : CrawlEnv) (st : DB) (cfg : CrawlerConfig) : DB :=
  match env.listingAnchors cfg.siteUrl with
  | none => st
  | some _ =>
    { recipes := siteRecipes env st.recipes cfg,
      configs := st.configs.map (fun c =>
        if c.id = cfg.id then { c with lastCrawl := some env.now } else c) }

/-- `runCrawler`, src/server/crawler.ts lines 201-283: read the enabled
configurations once, then process each site in order, isolating per-site
failures. -/
def runCrawler (env : CrawlEnv) (st : DB) : DB :=
  (st.configs.filter (fun c => c.enabled)).foldl (processSite env) st

/-- The recipes component of the per-site fold in isolation (used to
relate two runs of `runCrawler`): fold `siteRecipes` over a list of
configurations. -/
def runRecipes (env : CrawlEnv) (rs : List RecipeRow) (cfgs : List CrawlerConfig) : List RecipeRow :=
  cfgs.foldl (fun acc cfg => siteRecipes env acc cfg) rs

/-- The `(title, sourceName)` dedup-key uniqueness invariant of the
`recipes` table. -/
def uniqueKeys (rs : List RecipeRow) : Prop :=
  List.Pairwise (fun a b => ¬(a.title = b.title ∧ a.sourceName = b.sourceName)) rs

/-- Every recipe this site's crawl can produce already has its dedup
key present in `rs`. -/
def siteSaturated (env : CrawlEnv) (cfg : CrawlerConfig) (rs : List RecipeRow) : Prop :=
  ∀ link ∈ siteLinks env cfg, ∀ data, crawlRecipeAt env link cfg.selectors = some data →
    hasKey rs data.title cfg.siteName = true

/-- Agreement of two configuration rows on every field `processSite`
reads for its crawling behaviour (everything except `lastCrawl`). -/
def sameCore (c c' : CrawlerConfig) : Prop :=
  c'.id = c.id ∧ c'.siteName = c.siteName ∧ c'.siteUrl = c.siteUrl ∧
  c'.selectors = c.selectors ∧ c'.enabled = c.enabled

end Crawler

/-- Whether an HTTP status makes `response.ok` true. -/
def isOkStatus (s : Nat) : Bool :=
  200 ≤ s && s < 300

/-- The error thrown for a non-2xx response,
src/server/crawler.ts line 32. -/
def httpErrorMsg (status : Nat) : String :=
  ("HTTP error! status: ") ++ toString status

/-- What one `fetch` attempt does: deliver a response with a status, or
throw a network error. -/
inductive FetchAttempt where
  | response (status : Nat)
  | netError (msg : String)
deriving DecidableEq

/-- The final outcome of `fetchWithRetry`: a returned response or the
propagated last error. -/
inductive FetchOutcome where
  | success (status : Nat)
  | failure (msg : String)
deriving DecidableEq

/-- The observable trace of one `fetchWithRetry` call: how many fetch
attempts were made, which delays were awaited (in order), and the final
outcome. -/
structure FetchTrace where
  attempts : Nat
  delays : List Nat
  result : FetchOutcome
deriving DecidableEq

/-- The retry loop of `fetchWithRetry`, src/server/crawler.ts
lines 22-43, iterating over the remaining attempt numbers.  A response
with a non-2xx status throws, so it is a failure like a network error.
After a failed attempt `a` that is not the last, `delay(1000 * a)` is
awaited. -/
def fetchLoop (env : Nat → FetchAttempt) : List Nat → String → FetchTrace
  | [], lastError => ⟨0, [], FetchOutcome.failure lastError⟩
  | [a], _ =>
    match env a with
    | FetchAttempt.response s =>
      if isOkStatus s then ⟨1, [], FetchOutcome.success s⟩
      else ⟨1, [], FetchOutcome.failure (httpErrorMsg s)⟩
    | FetchAttempt.netError e => ⟨1, [], FetchOutcome.failure e⟩
  | a :: b :: rest, _ =>
    match env a with
    | FetchAttempt.response s =>
      if isOkStatus s then ⟨1, [], FetchOutcome.success s⟩
      else
        let t := fetchLoop env (b :: rest) (httpErrorMsg s)
        ⟨t.attempts + 1, 1000 * a :: t.delays, t.result⟩
    | FetchAttempt.netError e =>
      let t := fetchLoop env (b :: rest) e
      ⟨t.attempts + 1, 1000 * a :: t.delays, t.result⟩

/-- `fetchWithRetry`, src/server/crawler.ts lines 19-46 (identical in
every bundled revision): up to `maxRetries` attempts, numbered from 1. -/
def fetchWithRetry (env : Nat → FetchAttempt) (maxRetries : Nat) : FetchTrace :=
  fetchLoop env ((List.range maxRetries).map (fun i => i + 1)) ("")

/-- Whether attempt `j` fails (network error or non-2xx status). -/
def attemptFails (env : Nat → FetchAttempt) (j : Nat) : Bool :=
  match env j with
  | FetchAttempt.response s => !isOkStatus s
  | FetchAttempt.netError _ => true

/-- The error message attempt `j` produces when it fails. -/
def attemptErrMsg (env : Nat → FetchAttempt) (j : Nat) : String :=
  match env j with
  | FetchAttempt.response s => httpErrorMsg s
  | FetchAttempt.netError e => e

namespace P10

/-- The candidate `recipeLinks` selector patterns of `analyzeWebsite`,
src/unnamed/part_010 lines 404-410. -/
def linkSelectorCandidates : List String :=
  [("a[href*=\x27recipe\x27]"), ("a[href*=\x27recipes\x27]"), (".recipe-card a"),
   (".recipe-link"), ("[class*=\x27recipe\x27] a")]

/-- The selection loop of `analyzeWebsite`, src/unnamed/part_010
lines 412-425: track the selector with the strictly greatest match
count seen so far.  `count s` models `document.querySelectorAll(s).length`. -/
def pickBest (count : String → Nat) : List String → String × Nat → String × Nat
  | [], acc => acc
  | s :: rest, acc => pickBest count rest (if count s > acc.2 then (s, count s) else acc)

/-- The suggested `recipeLinks` selector,
src/unnamed/part_010 line 428: `bestLinkSelector || linkSelectors[0]`. -/
def suggestedRecipeLinksSelector (count : String → Nat) : String :=
  let best := (pickBest count linkSelectorCandidates (("", 0))).1
  if best = ("") then linkSelectorCandidates.headD ("") else best

end P10

/-- A detail page on which every required field extracts successfully. -/
def pageW : Crawler.Page :=
  ⟨some ("Pie"), none, some ("Tasty pie"), none, none, none,
   [some ("2 apples"), some ("1 crust")], [some ("Bake the pie well")], []⟩

/-- Selector configuration used by the concrete test environments (its
content is irrelevant to the modelled behaviour). -/
def selW : Crawler.Selectors :=
  ⟨("a"), ("h1"), (".d"), (".i li"), (".s li")⟩

/-- A site configuration whose listing is reachable in `envW`. -/
def cfgW : Crawler.CrawlerConfig :=
  ⟨1, ("W"), ("https://w.example/"), selW, true, none⟩

/-- A world with one reachable listing holding one extractable recipe
link. -/
def envW : Crawler.CrawlEnv :=
  ⟨fun u => if u = ("https://w.example/") then some (fun _ => [some ("https://w.example/recipe/pie")]) else none,
   fun u _ => if u = ("https://w.example/recipe/pie") then some pageW else none,
   7⟩

/-- Site A, whose listing URL is unreachable in `envC`. -/
def caW : Crawler.CrawlerConfig :=
  ⟨1, ("A"), ("https://a.example/"), selW, true, none⟩

/-- Site B, reachable in `envC` with one extractable recipe. -/
def cbW : Crawler.CrawlerConfig :=
  ⟨2, ("B"), ("https://b.example/"), selW, true, none⟩

/-- A world in which site A's listing fetch terminally fails and site
B's succeeds. -/
def envC : Crawler.CrawlEnv :=
  ⟨fun u => if u = ("https://b.example/") then some (fun _ => [some ("https://b.example/recipe/pie")]) else none,
   fun u _ => if u = ("https://b.example/recipe/pie") then some pageW else none,
   99⟩

/-- A fetch world whose first attempt fails with a network error and
whose later attempts return status 200. -/
def envF : Nat → FetchAttempt :=
  fun k => if k = 1 then FetchAttempt.netError ("down") else FetchAttempt.response 200

/-- A page on which the third candidate pattern matches 12 anchors, the
first matches 3, and the rest match none. -/
def countW : String → Nat :=
  fun s => if s = (".recipe-card a") then 12 else if s = ("a[href*=\x27recipe\x27]") then 3 else 0




/-- Deleting whitespace characters is idempotent. -/
theorem stripWs_idem (s : String) : stripWs (stripWs s) = stripWs s :=
  congrArg String.mk (List.filter_eq_self.mpr (fun c hc => (List.mem_filter.mp hc).2))

/-- A whitespace-free string is unchanged by `stripWs`. -/
theorem stripWs_of_noWs {s : String} (h : noWhitespace s = true) : stripWs s = s :=
  congrArg String.mk (List.filter_eq_self.mpr (fun c hc => List.all_eq_true.mp h c hc))

/-- A Boolean prefix test exposes the list as prefix plus remainder. -/
theorem isPrefixChars_exists_append {l m : List Char} (h : isPrefixChars l m = true) :
    ∃ t, m = l ++ t := by
  induction l generalizing m with
  | nil => exact ⟨m, rfl⟩
  | cons a l ih =>
    cases m with
    | nil => simp [isPrefixChars] at h
    | cons b m =>
      simp only [isPrefixChars, Bool.and_eq_true, beq_iff_eq] at h
      obtain ⟨rfl, h2⟩ := h
      obtain ⟨t, rfl⟩ := ih h2
      exact ⟨t, rfl⟩

/-- C4: for the base URL https://example.com/a/b, `normalizeUrl` maps
"/c" to "https://example.com/c" (origin-prefixed),
"//cdn.example.com/i.png" to "https://cdn.example.com/i.png"
(scheme-prefixed), "c" to "https://example.com/a/c" (standard relative
resolution), returns any already-absolute http:// or https:// URL
unchanged, and returns any data: URI unchanged. -/
theorem C4_normalizeUrl_table :
    normalizeUrl ("/c") ("https://example.com/a/b") = ("https://example.com/c") ∧
    normalizeUrl ("//cdn.example.com/i.png") ("https://example.com/a/b") =
      ("https://cdn.example.com/i.png") ∧
    normalizeUrl ("c") ("https://example.com/a/b") = ("https://example.com/a/c") ∧
    (∀ u base : String, noWhitespace u = true →
      startsWithStr u ("http://") = true ∨ startsWithStr u ("https://") = true →
      normalizeUrl u base = u) ∧
    (∀ u base : String, noWhitespace u = true → startsWithStr u ("data:") = true →
      normalizeUrl u base = u) := by
  refine ⟨by decide, by decide, by decide, ?_, ?_⟩
  · intro u base hnw h
    have hs : stripWs u = u := stripWs_of_noWs hnw
    obtain ⟨d⟩ := u
    show normalizeClean (stripWs (String.mk d)) base = String.mk d
    rw [hs]
    rcases h with h | h
    · obtain ⟨t, ht⟩ := isPrefixChars_exists_append (l := ("http://").data) (m := d) h
      subst ht
      rfl
    · obtain ⟨t, ht⟩ := isPrefixChars_exists_append (l := ("https://").data) (m := d) h
      subst ht
      rfl
  · intro u base hnw h
    have hs : stripWs u = u := stripWs_of_noWs hnw
    obtain ⟨d⟩ := u
    show normalizeClean (stripWs (String.mk d)) base = String.mk d
    rw [hs]
    obtain ⟨t, ht⟩ := isPrefixChars_exists_append (l := ("data:").data) (m := d) h
    subst ht
    rfl

/-- Witness for C4 at concrete inputs: an absolute https URL and a
data: URI pass through unchanged. -/
theorem C4_witness :
    normalizeUrl ("https://x.com/y") ("https://example.com/a/b") = ("https://x.com/y") ∧
    normalizeUrl ("data:image/png;base64,AAAA") ("https://example.com/a/b") =
      ("data:image/png;base64,AAAA") :=
  ⟨C4_normalizeUrl_table.2.2.2.1 ("https://x.com/y") ("https://example.com/a/b")
      (by decide) (Or.inr (by decide)),
   C4_normalizeUrl_table.2.2.2.2 ("data:image/png;base64,AAAA") ("https://example.com/a/b")
      (by decide) (by decide)⟩

/-- C10: `normalizeUrl` (in both the part_010 and the crawler.ts
revision) removes every whitespace character of the candidate before
classifying it, so a candidate behaves exactly like the same candidate
with all whitespace deleted, and an all-whitespace candidate is
rejected with the empty-string sentinel. -/
theorem C10_whitespace_stripping (u base : String) :
    (normalizeUrl u base = normalizeUrl (stripWs u) base ∧
      Crawler.normalizeUrl u base = Crawler.normalizeUrl (stripWs u) base) ∧
    (stripWs u = ("") →
      normalizeUrl u base = ("") ∧ Crawler.normalizeUrl u base = ("")) := by
  constructor
  · constructor
    · show normalizeClean (stripWs u) base = normalizeClean (stripWs (stripWs u)) base
      rw [stripWs_idem]
    · show Crawler.normalizeClean (stripWs u) base =
        Crawler.normalizeClean (stripWs (stripWs u)) base
      rw [stripWs_idem]
  · intro h
    constructor
    · show normalizeClean (stripWs u) base = ("")
      rw [h]
      rfl
    · show Crawler.normalizeClean (stripWs u) base = ("")
      rw [h]
      rfl

/-- Witness for C10: the interior-whitespace candidate " a b/c " behaves
as "ab/c", and the all-whitespace candidate "  " is rejected. -/
theorem C10_witness :
    normalizeUrl (" a b/c ") ("https://example.com/a/b") =
      normalizeUrl ("ab/c") ("https://example.com/a/b") ∧
    normalizeUrl ("  ") ("https://example.com/a/b") = ("") := by
  constructor
  · have h := (C10_whitespace_stripping (" a b/c ") ("https://example.com/a/b")).1.1
    rw [h]
    rfl
  · exact ((C10_whitespace_stripping ("  ") ("https://example.com/a/b")).2 (by decide)).1

/-- C7: `parseTimeToMinutes` matches hour and minute tokens
case-insensitively and sums them into total minutes; with neither
present a bare integer is taken as minutes; "1 hour 30 minutes" yields
90, "45 min" yields 45, "2 hr" yields 120, "45" yields 45, and "tbd"
yields no detected time (0, the undetected sentinel the caller
defaults). -/
theorem C7_parseTimeToMinutes :
    parseTimeToMinutes ("1 hour 30 minutes") = 90 ∧
    parseTimeToMinutes ("45 min") = 45 ∧
    parseTimeToMinutes ("2 hr") = 120 ∧
    parseTimeToMinutes ("45") = 45 ∧
    parseTimeToMinutes ("tbd") = 0 ∧
    parseTimeToMinutes ("1 HOUR 30 MINUTES") = 90 ∧
    parseTimeToMinutes ("2h45m") = 165 := by
  decide

/-- Membership in a JavaScript-`Set` insertion. -/
theorem mem_setAdd {acc : List String} {x u : String} :
    u ∈ setAdd acc x ↔ u ∈ acc ∨ u = x := by
  by_cases hx : x ∈ acc
  · simp only [setAdd, if_pos hx]
    constructor
    · exact Or.inl
    · rintro (h | rfl)
      · exact h
      · exact hx
  · simp [setAdd, if_neg hx]

/-- Inserting an already-present element changes nothing. -/
theorem setAdd_of_mem {acc : List String} {x : String} (h : x ∈ acc) : setAdd acc x = acc := by
  simp [setAdd, h]

/-- `setAdd` preserves duplicate-freedom. -/
theorem nodup_setAdd {acc : List String} {x : String} (h : acc.Nodup) : (setAdd acc x).Nodup := by
  by_cases hx : x ∈ acc
  · rw [setAdd_of_mem hx]
    exact h
  · simp [setAdd, if_neg hx, List.nodup_append, h, hx]

/-- The `collectLinks` loop is a fold of `Set` insertions over the
candidates each iteration would insert. -/
theorem collectLinks_eq_foldl (baseUrl : String) :
    ∀ (l : List (Option String)) (acc : List String),
      P6.collectLinks baseUrl l acc = (l.filterMap (P6.linkCandidate baseUrl)).foldl setAdd acc := by
  intro l
  induction l with
  | nil => intro acc; rfl
  | cons o rest ih =>
    intro acc
    cases o with
    | none =>
      simpa [P6.linkCandidate] using ih acc
    | some href =>
      by_cases hn : normalizeUrl href baseUrl = ("")
      · simp [P6.collectLinks, P6.linkCandidate, hn, ih]
      · by_cases hr : P6.isRecipeUrl (normalizeUrl href baseUrl) = true
        · simp [P6.collectLinks, P6.linkCandidate, hn, hr, ih]
        · simp [P6.collectLinks, P6.linkCandidate, hn, hr, ih]

/-- Membership after folding `Set` insertions. -/
theorem mem_foldl_setAdd :
    ∀ (ks : List String) (acc : List String) (u : String),
      u ∈ ks.foldl setAdd acc ↔ u ∈ acc ∨ u ∈ ks := by
  intro ks
  induction ks with
  | nil => intro acc u; simp
  | cons k ks ih =>
    intro acc u
    rw [List.foldl_cons, ih, mem_setAdd]
    constructor
    · rintro ((h | rfl) | h)
      · exact Or.inl h
      · exact Or.inr (List.mem_cons_self _ _)
      · exact Or.inr (List.mem_cons_of_mem _ h)
    · rintro (h | h)
      · exact Or.inl (Or.inl h)
      · rcases List.mem_cons.mp h with rfl | h
        · exact Or.inl (Or.inr rfl)
        · exact Or.inr h

/-- C5: a normalized anchor URL is kept by the part_006 link filter if
and only if it case-insensitively contains one of the keywords
"recipe", "recipes", "cooking", "food", or contains a two-consecutive-
digit token (the match condition of the regular expression
/\d{4}|\d{2}/); "https://site.com/blog/2024-banana-skillet-recipe"
passes and "https://site.com/about" is discarded even though its anchor
matched the selector. -/
theorem C5_link_filter (anchors : List (Option String)) (baseUrl u : String) :
    (u ∈ P6.findRecipeLinks anchors baseUrl ↔
      ∃ h, some h ∈ anchors ∧ normalizeUrl h baseUrl = u ∧ u ≠ ("") ∧
        (containsSub ("recipe").data (lowerStr u).data = true ∨
         containsSub ("recipes").data (lowerStr u).data = true ∨
         containsSub ("cooking").data (lowerStr u).data = true ∨
         containsSub ("food").data (lowerStr u).data = true ∨
         hasTwoConsecutiveDigits u.data = true)) ∧
    P6.isRecipeUrl ("https://site.com/blog/2024-banana-skillet-recipe") = true ∧
    P6.isRecipeUrl ("https://site.com/about") = false ∧
    P6.findRecipeLinks
        [some ("https://site.com/blog/2024-banana-skillet-recipe"), some ("https://site.com/about")]
        ("https://site.com/") = [("https://site.com/blog/2024-banana-skillet-recipe")] := by
  have hrec : ∀ v : String, P6.isRecipeUrl v = true ↔
      (containsSub ("recipe").data (lowerStr v).data = true ∨
       containsSub ("recipes").data (lowerStr v).data = true ∨
       containsSub ("cooking").data (lowerStr v).data = true ∨
       containsSub ("food").data (lowerStr v).data = true ∨
       hasTwoConsecutiveDigits v.data = true) := by
    intro v
    simp only [P6.isRecipeUrl, Bool.or_eq_true]
    tauto
  refine ⟨?_, by decide, by decide, by decide⟩
  rw [show P6.findRecipeLinks anchors baseUrl = P6.collectLinks baseUrl anchors [] from rfl]
  rw [collectLinks_eq_foldl, mem_foldl_setAdd]
  simp only [List.mem_filterMap, List.not_mem_nil, false_or]
  constructor
  · rintro ⟨o, ho, hco⟩
    cases o with
    | none => simp [P6.linkCandidate] at hco
    | some href =>
      by_cases hn : normalizeUrl href baseUrl = ("")
      · simp [P6.linkCandidate, hn] at hco
      · by_cases hr : P6.isRecipeUrl (normalizeUrl href baseUrl) = true
        · have hcand : P6.linkCandidate baseUrl (some href) = some (normalizeUrl href baseUrl) := by
            simp [P6.linkCandidate, hn, hr]
          rw [hcand] at hco
          injection hco with e
          refine ⟨href, ho, ?_⟩
          subst e
          exact ⟨rfl, hn, (hrec _).mp hr⟩
        · simp [P6.linkCandidate, hn, hr] at hco
  · rintro ⟨h, hh, hnu, hne, hfilter⟩
    refine ⟨some h, hh, ?_⟩
    have hr : P6.isRecipeUrl u = true := (hrec u).mpr hfilter
    simp [P6.linkCandidate, hnu, hne, hr]

/-- One ingredient-loop step, phrased through the candidate it would
insert. -/
theorem ingStep_eq_addCandidate (acc : List String) (o : Option String) :
    P7.ingStep acc o =
      (match P7.addCandidate o with
       | some t => setAdd acc t
       | none => acc) := by
  cases o with
  | none => rfl
  | some raw =>
    by_cases hc : jsTrim raw ≠ ("") ∧ 1 < (jsTrim raw).length
    · simp [P7.ingStep, P7.addCandidate, hc]
    · simp [P7.ingStep, P7.addCandidate, hc]

/-- Membership after the ingredient fold. -/
theorem mem_ingFold :
    ∀ (l : List (Option String)) (acc : List String) (x : String),
      x ∈ l.foldl P7.ingStep acc ↔ x ∈ acc ∨ ∃ o ∈ l, P7.addCandidate o = some x := by
  intro l
  induction l with
  | nil => intro acc x; simp
  | cons o rest ih =>
    intro acc x
    rw [List.foldl_cons, ih, ingStep_eq_addCandidate]
    cases hc : P7.addCandidate o with
    | none =>
      constructor
      · rintro (h | ⟨o', ho', hco'⟩)
        · exact Or.inl h
        · exact Or.inr ⟨o', List.mem_cons_of_mem _ ho', hco'⟩
      · rintro (h | ⟨o', ho', hco'⟩)
        · exact Or.inl h
        · rcases List.mem_cons.mp ho' with rfl | ho''
          · rw [hc] at hco'
            cases hco'
          · exact Or.inr ⟨o', ho'', hco'⟩
    | some t =>
      rw [mem_setAdd]
      constructor
      · rintro ((h | rfl) | ⟨o', ho', hco'⟩)
        · exact Or.inl h
        · exact Or.inr ⟨o, List.mem_cons_self _ _, hc⟩
        · exact Or.inr ⟨o', List.mem_cons_of_mem _ ho', hco'⟩
      · rintro (h | ⟨o', ho', hco'⟩)
        · exact Or.inl (Or.inl h)
        · rcases List.mem_cons.mp ho' with rfl | ho''
          · rw [hc] at hco'
            injection hco' with e
            exact Or.inl (Or.inr e.symm)
          · exact Or.inr ⟨o', ho'', hco'⟩

/-- The ingredient fold preserves duplicate-freedom. -/
theorem nodup_ingFold :
    ∀ (l : List (Option String)) (acc : List String), acc.Nodup → (l.foldl P7.ingStep acc).Nodup := by
  intro l
  induction l with
  | nil => intro acc h; exact h
  | cons o rest ih =>
    intro acc h
    rw [List.foldl_cons]
    apply ih
    rw [ingStep_eq_addCandidate]
    cases P7.addCandidate o with
    | none => exact h
    | some t => exact nodup_setAdd h

/-- When every candidate an ingredient pass would insert is already
present, the fold is a no-op. -/
theorem ingFold_noop :
    ∀ (l : List (Option String)) (acc : List String),
      (∀ o ∈ l, ∀ x, P7.addCandidate o = some x → x ∈ acc) →
      l.foldl P7.ingStep acc = acc := by
  intro l
  induction l with
  | nil => intro acc _; rfl
  | cons o rest ih =>
    intro acc h
    rw [List.foldl_cons]
    have hstep : P7.ingStep acc o = acc := by
      rw [ingStep_eq_addCandidate]
      cases hc : P7.addCandidate o with
      | none => rfl
      | some t => exact setAdd_of_mem (h o (List.mem_cons_self _ _) t hc)
    rw [hstep]
    exact ih acc (fun o' ho' x hx => h o' (List.mem_cons_of_mem _ ho') x hx)

/-- What it means for the ingredient loop to produce a candidate. -/
theorem addCandidate_eq_some {o : Option String} {x : String}
    (h : P7.addCandidate o = some x) :
    ∃ raw, o = some raw ∧ jsTrim raw = x ∧ x ≠ ("") ∧ 1 < x.length := by
  cases o with
  | none => cases h
  | some raw =>
    by_cases hc : jsTrim raw ≠ ("") ∧ 1 < (jsTrim raw).length
    · have : P7.addCandidate (some raw) = some (jsTrim raw) := by
        simp [P7.addCandidate, hc]
      rw [this] at h
      injection h with e
      exact ⟨raw, rfl, e, e ▸ hc.1, e ▸ hc.2⟩
    · have hz : P7.addCandidate (some raw) = none := if_neg hc
      rw [hz] at h
      cases h

/-- C6: the part_007 detail-page extraction trims each matched
ingredient text, discards entries of length one or less, and
deduplicates identical trimmed entries (appending a second copy of the
matched elements changes nothing, and two identical list items yield
exactly one entry); instruction extraction trims, discards entries of
five characters or less and bare step-number tokens, and does not
deduplicate (a second copy of the matched elements duplicates the
output, and two identical items are both kept). -/
theorem C6_extraction_filters (l : List (Option String)) :
    (P7.extractIngredients l).Nodup ∧
    P7.extractIngredients (l ++ l) = P7.extractIngredients l ∧
    P7.extractInstructions (l ++ l) = P7.extractInstructions l ++ P7.extractInstructions l ∧
    (∀ t ∈ P7.extractIngredients l, 1 < t.length) ∧
    (∀ t ∈ P7.extractInstructions l, 5 < t.length ∧ P7.isStepToken t = false) ∧
    P7.extractIngredients [some (" 1 cup flour "), some ("1 cup flour")] = [("1 cup flour")] ∧
    P7.extractInstructions [some (" Stir the pot well "), some ("Stir the pot well")] =
      [("Stir the pot well"), ("Stir the pot well")] ∧
    P7.extractInstructions [some ("123456."), some ("1."), some ("Step"), some ("step")] = [] := by
  refine ⟨?_, ?_, ?_, ?_, ?_, by decide, by decide, by decide⟩
  · exact nodup_ingFold l [] List.Pairwise.nil
  · show (l ++ l).foldl P7.ingStep [] = l.foldl P7.ingStep []
    rw [List.foldl_append]
    apply ingFold_noop
    intro o ho x hx
    exact (mem_ingFold l [] x).mpr (Or.inr ⟨o, ho, hx⟩)
  · unfold P7.extractInstructions
    rw [List.map_append, List.filterMap_append]
  · intro t ht
    rcases (mem_ingFold l [] t).mp ht with h | ⟨o, _, hco⟩
    · exact absurd h (List.not_mem_nil t)
    · obtain ⟨raw, _, _, _, hlen⟩ := addCandidate_eq_some hco
      exact hlen
  · intro t ht
    unfold P7.extractInstructions at ht
    rw [List.mem_filterMap] at ht
    obtain ⟨o, _, hco⟩ := ht
    cases o with
    | none => cases hco
    | some text =>
      have hco' : (if text ≠ ("") ∧ 5 < text.length ∧ P7.isStepToken text = false
          then some text else none) = some t := hco
      by_cases hc : text ≠ ("") ∧ 5 < text.length ∧ P7.isStepToken text = false
      · rw [if_pos hc] at hco'
        injection hco' with e
        exact ⟨e ▸ hc.2.1, e ▸ hc.2.2⟩
      · rw [if_neg hc] at hco'
        cases hco' 

/-- Witness for C6 at concrete inputs: a kept ingredient is longer than
one character, and a kept instruction is longer than five characters
and not a step token. -/
theorem C6_witness :
    1 < ("1 cup flour").length ∧ 5 < ("Stir the pot well").length ∧
    P7.isStepToken ("Stir the pot well") = false := by
  have h := C6_extraction_filters [some ("1 cup flour"), some ("Stir the pot well")]
  have h1 := h.2.2.2.1 ("1 cup flour") (by decide)
  have h2 := h.2.2.2.2.1 ("Stir the pot well") (by decide)
  exact ⟨h1, h2.1, h2.2⟩

/-- The maximum-tracking fold of the analyzer keeps a running maximum,
never decreases it, and ends on a candidate attaining it. -/
theorem pickBest_spec (count : String → Nat) :
    ∀ (l : List String) (acc : String × Nat),
      (∀ s ∈ l, count s ≤ (P10.pickBest count l acc).2) ∧
      acc.2 ≤ (P10.pickBest count l acc).2 ∧
      (P10.pickBest count l acc = acc ∨
        ((P10.pickBest count l acc).1 ∈ l ∧
          (P10.pickBest count l acc).2 = count (P10.pickBest count l acc).1)) := by
  intro l
  induction l with
  | nil =>
    intro acc
    exact ⟨by simp, Nat.le_refl _, Or.inl rfl⟩
  | cons s rest ih =>
    intro acc
    rw [show P10.pickBest count (s :: rest) acc =
        P10.pickBest count rest (if count s > acc.2 then (s, count s) else acc) from rfl]
    by_cases hcs : count s > acc.2
    · rw [if_pos hcs]
      obtain ⟨ha, hb, hc⟩ := ih ((s, count s))
      refine ⟨?_, ?_, ?_⟩
      · intro x hx
        rcases List.mem_cons.mp hx with rfl | hx'
        · simpa using hb
        · exact ha x hx'
      · exact Nat.le_trans (Nat.le_of_lt hcs) (by simpa using hb)
      · rcases hc with he | ⟨h1, h2⟩
        · rw [he]
          exact Or.inr ⟨List.mem_cons_self _ _, rfl⟩
        · exact Or.inr ⟨List.mem_cons_of_mem _ h1, h2⟩
    · rw [if_neg hcs]
      obtain ⟨ha, hb, hc⟩ := ih acc
      refine ⟨?_, hb, ?_⟩
      · intro x hx
        rcases List.mem_cons.mp hx with rfl | hx'
        · exact Nat.le_trans (Nat.le_of_not_lt hcs) hb
        · exact ha x hx'
      · rcases hc with he | h
        · exact Or.inl he
        · exact Or.inr ⟨List.mem_cons_of_mem _ h.1, h.2⟩

/-- C9: for every analyzed page, the part_010 analyzer's suggested
recipeLinks selector is a candidate pattern whose query matches the
greatest number of elements on the page — not the first pattern that
matches anything; on a page where ".recipe-card a" matches 12 anchors
and the first candidate matches 3 (so "first match" would differ), the
12-match pattern is suggested. -/
theorem C9_analyzer_link_selector (count : String → Nat) :
    P10.suggestedRecipeLinksSelector count ∈ P10.linkSelectorCandidates ∧
    (∀ s ∈ P10.linkSelectorCandidates, count s ≤ count (P10.suggestedRecipeLinksSelector count)) ∧
    P10.suggestedRecipeLinksSelector countW = (".recipe-card a") ∧
    countW (".recipe-card a") = 12 ∧
    countW ("a[href*=\x27recipe\x27]") = 3 ∧
    0 < countW ("a[href*=\x27recipe\x27]") := by
  have key : P10.suggestedRecipeLinksSelector count ∈ P10.linkSelectorCandidates ∧
      ∀ s ∈ P10.linkSelectorCandidates, count s ≤ count (P10.suggestedRecipeLinksSelector count) := by
    obtain ⟨ha, hb, hc⟩ := pickBest_spec count P10.linkSelectorCandidates (("", 0))
    unfold P10.suggestedRecipeLinksSelector
    by_cases hbest : (P10.pickBest count P10.linkSelectorCandidates (("", 0))).1 = ("")
    · rw [if_pos hbest]
      have hr : P10.pickBest count P10.linkSelectorCandidates (("", 0)) = (("", 0)) := by
        rcases hc with he | ⟨h1, _⟩
        · exact he
        · rw [hbest] at h1
          exact absurd h1 (by decide)
      constructor
      · decide
      · intro s hs
        have hle := ha s hs
        rw [hr] at hle
        exact Nat.le_trans hle (Nat.zero_le _)
    · rw [if_neg hbest]
      rcases hc with he | ⟨h1, h2⟩
      · rw [he] at hbest
        exact absurd rfl hbest
      · refine ⟨h1, fun s hs => ?_⟩
        rw [← h2]
        exact ha s hs
  exact ⟨key.1, key.2, by decide, by decide, by decide, by decide⟩

/-- Witness for C9: on the concrete 12-versus-3 page, the count of any
candidate is bounded by the count of the suggested selector. -/
theorem C9_witness : countW (".recipe-link") ≤ countW (P10.suggestedRecipeLinksSelector countW) :=
  (C9_analyzer_link_selector countW).2.1 (".recipe-link") (by decide)

/-- A possibly-`undefined` string is falsy exactly when it is absent or
empty. -/
theorem jsTruthyStr_false_iff (o : Option String) :
    jsTruthyStr o = false ↔ o = none ∨ o = some ("") := by
  cases o with
  | none => simp [jsTruthyStr]
  | some s => simp [jsTruthyStr]

/-- A possibly-`undefined` string is truthy exactly when it is a
non-empty present string. -/
theorem jsTruthyStr_true_iff (o : Option String) :
    jsTruthyStr o = true ↔ ∃ s, o = some s ∧ s ≠ ("") := by
  cases o with
  | none => simp [jsTruthyStr]
  | some s => simp [jsTruthyStr]

/-- The validation gate: `crawlRecipe` returns `null` exactly when the
gate condition fires. -/
theorem crawlRecipe_eq_none_iff (url : String) (p : Crawler.Page) :
    Crawler.crawlRecipe url p = none ↔
      (jsTruthyStr (Crawler.titleOf p) = false ∨ jsTruthyStr (Crawler.descriptionOf p) = false ∨
        Crawler.ingredientsOf p = [] ∨ Crawler.instructionsOf p = []) := by
  unfold Crawler.crawlRecipe
  split
  · rename_i h
    exact iff_of_true rfl h
  · rename_i h
    exact iff_of_false (by simp) h

/-- C1: for every recipe detail page, extraction returns null whenever
the extracted title is empty or absent, the description is empty or
absent, the ingredient list is empty, or the instruction list is empty;
and whenever all four are present it returns a record containing
exactly the extracted title, description, ingredients, instructions and
source URL — a partially-populated record is never returned. -/
theorem C1_extraction_gate (url : String) (p : Crawler.Page) :
    (Crawler.crawlRecipe url p = none ↔
      (Crawler.titleOf p = none ∨ Crawler.titleOf p = some ("")) ∨
      (Crawler.descriptionOf p = none ∨ Crawler.descriptionOf p = some ("")) ∨
      Crawler.ingredientsOf p = [] ∨ Crawler.instructionsOf p = []) ∧
    (Crawler.crawlRecipe url p = none ∨
      ∃ t d, Crawler.titleOf p = some t ∧ t ≠ ("") ∧
        Crawler.descriptionOf p = some d ∧ d ≠ ("") ∧
        Crawler.crawlRecipe url p =
          some ⟨t, d, Crawler.ingredientsOf p, Crawler.instructionsOf p, url⟩) := by
  constructor
  · rw [crawlRecipe_eq_none_iff]
    exact or_congr (jsTruthyStr_false_iff _) (or_congr (jsTruthyStr_false_iff _) Iff.rfl)
  · by_cases hn : Crawler.crawlRecipe url p = none
    · exact Or.inl hn
    · right
      have hgate : ¬(jsTruthyStr (Crawler.titleOf p) = false ∨
          jsTruthyStr (Crawler.descriptionOf p) = false ∨
          Crawler.ingredientsOf p = [] ∨ Crawler.instructionsOf p = []) :=
        fun h => hn ((crawlRecipe_eq_none_iff url p).mpr h)
      have hsome : Crawler.crawlRecipe url p =
          some ⟨(Crawler.titleOf p).getD (""), (Crawler.descriptionOf p).getD (""),
            Crawler.ingredientsOf p, Crawler.instructionsOf p, url⟩ := by
        unfold Crawler.crawlRecipe
        rw [if_neg hgate]
      push_neg at hgate
      obtain ⟨h1, h2, _, _⟩ := hgate
      obtain ⟨t, htt, htn⟩ := (jsTruthyStr_true_iff _).mp (by
        cases hjs : jsTruthyStr (Crawler.titleOf p) with
        | false => exact absurd hjs h1
        | true => rfl)
      obtain ⟨d, hdd, hdn⟩ := (jsTruthyStr_true_iff _).mp (by
        cases hjs : jsTruthyStr (Crawler.descriptionOf p) with
        | false => exact absurd hjs h2
        | true => rfl)
      refine ⟨t, d, htt, htn, hdd, hdn, ?_⟩
      rw [hsome, htt, hdd]
      rfl

/-- A non-failing attempt is a response with a 2xx status. -/
theorem attemptFails_eq_false {env : Nat → FetchAttempt} {a : Nat}
    (h : attemptFails env a = false) :
    ∃ s, env a = FetchAttempt.response s ∧ isOkStatus s = true := by
  cases he : env a with
  | response s =>
    refine ⟨s, rfl, ?_⟩
    simp [attemptFails, he] at h
    exact h
  | netError e =>
    simp [attemptFails, he] at h

/-- A successful attempt ends the loop at once. -/
theorem fetchLoop_ok (env : Nat → FetchAttempt) (a : Nat) (rest : List Nat) (lastErr : String)
    {s : Nat} (h : env a = FetchAttempt.response s) (hok : isOkStatus s = true) :
    fetchLoop env (a :: rest) lastErr = ⟨1, [], FetchOutcome.success s⟩ := by
  cases rest with
  | nil => simp [fetchLoop, h, hok]
  | cons b r => simp [fetchLoop, h, hok]

/-- A failing attempt that is not the last waits `1000 * a` and
continues with its error message as the running last error. -/
theorem fetchLoop_fail_step (env : Nat → FetchAttempt) (a b : Nat) (rest : List Nat)
    (lastErr : String) (hf : attemptFails env a = true) :
    fetchLoop env (a :: b :: rest) lastErr =
      ⟨(fetchLoop env (b :: rest) (attemptErrMsg env a)).attempts + 1,
       1000 * a :: (fetchLoop env (b :: rest) (attemptErrMsg env a)).delays,
       (fetchLoop env (b :: rest) (attemptErrMsg env a)).result⟩ := by
  cases h : env a with
  | response s =>
    have hns : isOkStatus s = false := by
      have := hf
      simp [attemptFails, h] at this
      simp [this]
    simp [fetchLoop, h, hns, attemptErrMsg]
  | netError e => simp [fetchLoop, h, attemptErrMsg]

/-- A failing final attempt stops with its own error and no delay. -/
theorem fetchLoop_fail_last (env : Nat → FetchAttempt) (a : Nat) (lastErr : String)
    (hf : attemptFails env a = true) :
    fetchLoop env [a] lastErr = ⟨1, [], FetchOutcome.failure (attemptErrMsg env a)⟩ := by
  cases h : env a with
  | response s =>
    have hns : isOkStatus s = false := by
      have := hf
      simp [attemptFails, h] at this
      simp [this]
    simp [fetchLoop, h, hns, attemptErrMsg]
  | netError e => simp [fetchLoop, h, attemptErrMsg]

/-- C8: `fetchWithRetry` makes at most 3 attempts, treating any non-2xx
status as a failure; the delays awaited are exactly `k * 1000` before
retry attempt `k + 1`, with none after the final attempt; the first
successful response is returned, and after exhausting all attempts the
last failure is propagated. -/
theorem C8_fetchWithRetry (env : Nat → FetchAttempt) :
    (fetchWithRetry env 3).attempts ≤ 3 ∧
    (fetchWithRetry env 3).delays =
      (List.range ((fetchWithRetry env 3).attempts - 1)).map (fun i => 1000 * (i + 1)) ∧
    (∀ k s, k ∈ ([1, 2, 3] : List Nat) → env k = FetchAttempt.response s → isOkStatus s = true →
      (∀ j ∈ ([1, 2, 3] : List Nat), j < k → attemptFails env j = true) →
      (fetchWithRetry env 3).result = FetchOutcome.success s ∧ (fetchWithRetry env 3).attempts = k) ∧
    ((∀ j ∈ ([1, 2, 3] : List Nat), attemptFails env j = true) →
      (fetchWithRetry env 3).result = FetchOutcome.failure (attemptErrMsg env 3) ∧
      (fetchWithRetry env 3).attempts = 3) := by
  have hl : fetchWithRetry env 3 = fetchLoop env [1, 2, 3] ("") := rfl
  rw [hl]
  by_cases f1 : attemptFails env 1 = true
  · rw [fetchLoop_fail_step env 1 2 [3] ("") f1]
    by_cases f2 : attemptFails env 2 = true
    · rw [fetchLoop_fail_step env 2 3 [] (attemptErrMsg env 1) f2]
      by_cases f3 : attemptFails env 3 = true
      · rw [fetchLoop_fail_last env 3 (attemptErrMsg env 2) f3]
        refine ⟨by norm_num, by norm_num [List.range_succ], ?_, ?_⟩
        · intro k s hk hks hoks hfails
          have hk3 : k = 1 ∨ k = 2 ∨ k = 3 := by simpa using hk
          exfalso
          rcases hk3 with rfl | rfl | rfl
          · simp [attemptFails, hks, hoks] at f1
          · simp [attemptFails, hks, hoks] at f2
          · simp [attemptFails, hks, hoks] at f3
        · intro _
          exact ⟨rfl, by norm_num⟩
      · have hne : attemptFails env 3 = false := by
          cases h3 : attemptFails env 3 with
          | false => rfl
          | true => exact absurd h3 f3
        obtain ⟨s3, hs3, hok3⟩ := attemptFails_eq_false hne
        rw [fetchLoop_ok env 3 [] (attemptErrMsg env 2) hs3 hok3]
        refine ⟨by norm_num, by norm_num [List.range_succ], ?_, ?_⟩
        · intro k s hk hks hoks hfails
          have hk3 : k = 1 ∨ k = 2 ∨ k = 3 := by simpa using hk
          rcases hk3 with rfl | rfl | rfl
          · exfalso
            simp [attemptFails, hks, hoks] at f1
          · exfalso
            simp [attemptFails, hks, hoks] at f2
          · rw [hs3] at hks
            injection hks with e
            subst e
            exact ⟨rfl, by norm_num⟩
        · intro hall
          exfalso
          have hf := hall 3 (by decide)
          rw [hne] at hf
          exact absurd hf (by decide)
    · have hne : attemptFails env 2 = false := by
        cases h2 : attemptFails env 2 with
        | false => rfl
        | true => exact absurd h2 f2
      obtain ⟨s2, hs2, hok2⟩ := attemptFails_eq_false hne
      rw [fetchLoop_ok env 2 [3] (attemptErrMsg env 1) hs2 hok2]
      refine ⟨by norm_num, by norm_num [List.range_succ], ?_, ?_⟩
      · intro k s hk hks hoks hfails
        have hk3 : k = 1 ∨ k = 2 ∨ k = 3 := by simpa using hk
        rcases hk3 with rfl | rfl | rfl
        · exfalso
          simp [attemptFails, hks, hoks] at f1
        · rw [hs2] at hks
          injection hks with e
          subst e
          exact ⟨rfl, by norm_num⟩
        · exfalso
          have hf := hfails 2 (by decide) (by decide)
          rw [hne] at hf
          exact absurd hf (by decide)
      · intro hall
        exfalso
        have hf := hall 2 (by decide)
        rw [hne] at hf
        exact absurd hf (by decide)
  · have hne : attemptFails env 1 = false := by
      cases h1 : attemptFails env 1 with
      | false => rfl
      | true => exact absurd h1 f1
    obtain ⟨s1, hs1, hok1⟩ := attemptFails_eq_false hne
    rw [fetchLoop_ok env 1 [2, 3] ("") hs1 hok1]
    refine ⟨by norm_num, by norm_num, ?_, ?_⟩
    · intro k s hk hks hoks hfails
      have hk3 : k = 1 ∨ k = 2 ∨ k = 3 := by simpa using hk
      rcases hk3 with rfl | rfl | rfl
      · rw [hs1] at hks
        injection hks with e
        subst e
        exact ⟨rfl, rfl⟩
      · exfalso
        have hf := hfails 1 (by decide) (by decide)
        rw [hne] at hf
        exact absurd hf (by decide)
      · exfalso
        have hf := hfails 1 (by decide) (by decide)
        rw [hne] at hf
        exact absurd hf (by decide)
    · intro hall
      exfalso
      have hf := hall 1 (by decide)
      rw [hne] at hf
      exact absurd hf (by decide)

/-- Witness for C8: with the first attempt failing with a network error
and the second returning status 200, the call returns that response
after exactly two attempts, having waited once. -/
theorem C8_witness :
    (fetchWithRetry envF 3).result = FetchOutcome.success 200 ∧
    (fetchWithRetry envF 3).attempts = 2 :=
  (C8_fetchWithRetry envF).2.2.1 2 200 (by decide) (by decide) (by decide) (by decide)

/-- One link step only appends rows. -/
theorem saveLink_grows (env : Crawler.CrawlEnv) (cfg : Crawler.CrawlerConfig)
    (rs : List Crawler.RecipeRow) (l : String) :
    ∃ t, Crawler.saveLink env cfg rs l = rs ++ t := by
  cases h : Crawler.crawlRecipeAt env l cfg.selectors with
  | none => exact ⟨[], by simp [Crawler.saveLink, h]⟩
  | some d =>
    by_cases hk : Crawler.hasKey rs d.title cfg.siteName = true
    · exact ⟨[], by simp [Crawler.saveLink, h, hk]⟩
    · exact ⟨[Crawler.mkRow d cfg.siteName], by simp [Crawler.saveLink, h, hk]⟩

/-- A present dedup key stays present under appends. -/
theorem hasKey_append {rs t : List Crawler.RecipeRow} {a b : String}
    (h : Crawler.hasKey rs a b = true) : Crawler.hasKey (rs ++ t) a b = true := by
  unfold Crawler.hasKey at h ⊢
  rw [List.any_append, h]
  rfl

/-- The per-site link loop only appends rows. -/
theorem foldl_saveLink_grows (env : Crawler.CrawlEnv) (cfg : Crawler.CrawlerConfig) :
    ∀ (links : List String) (rs : List Crawler.RecipeRow),
      ∃ t, links.foldl (Crawler.saveLink env cfg) rs = rs ++ t := by
  intro links
  induction links with
  | nil => intro rs; exact ⟨[], by simp⟩
  | cons l ls ih =>
    intro rs
    obtain ⟨t2, h2⟩ := ih (Crawler.saveLink env cfg rs l)
    obtain ⟨t1, h1⟩ := saveLink_grows env cfg rs l
    exact ⟨t1 ++ t2, by rw [List.foldl_cons, h2, h1, List.append_assoc]⟩

/-- After processing a link whose extraction succeeded, its dedup key is
present. -/
theorem saveLink_establishes (env : Crawler.CrawlEnv) (cfg : Crawler.CrawlerConfig)
    (rs : List Crawler.RecipeRow) (l : String) {d : Crawler.ExtractedRecipe}
    (h : Crawler.crawlRecipeAt env l cfg.selectors = some d) :
    Crawler.hasKey (Crawler.saveLink env cfg rs l) d.title cfg.siteName = true := by
  by_cases hk : Crawler.hasKey rs d.title cfg.siteName = true
  · have : Crawler.saveLink env cfg rs l = rs := by simp [Crawler.saveLink, h, hk]
    rw [this]
    exact hk
  · have : Crawler.saveLink env cfg rs l = rs ++ [Crawler.mkRow d cfg.siteName] := by
      simp [Crawler.saveLink, h, hk]
    rw [this]
    unfold Crawler.hasKey
    rw [List.any_append]
    have hx : ([Crawler.mkRow d cfg.siteName].any
        (fun r => r.title == d.title && r.sourceName == cfg.siteName)) = true := by
      simp [Crawler.mkRow]
    rw [hx]
    simp

/-- Every link of the loop leaves its extracted key present at the end. -/
theorem foldl_saveLink_establishes (env : Crawler.CrawlEnv) (cfg : Crawler.CrawlerConfig) :
    ∀ (links : List String) (rs : List Crawler.RecipeRow) (l : String), l ∈ links →
      ∀ d, Crawler.crawlRecipeAt env l cfg.selectors = some d →
        Crawler.hasKey (links.foldl (Crawler.saveLink env cfg) rs) d.title cfg.siteName = true := by
  intro links
  induction links with
  | nil => intro rs l hl; exact absurd hl (List.not_mem_nil l)
  | cons x xs ih =>
    intro rs l hl d hd
    rw [List.foldl_cons]
    rcases List.mem_cons.mp hl with rfl | hmem
    · obtain ⟨t, ht⟩ := foldl_saveLink_grows env cfg xs (Crawler.saveLink env cfg rs l)
      rw [ht]
      exact hasKey_append (saveLink_establishes env cfg rs l hd)
    · exact ih (Crawler.saveLink env cfg rs x) l hmem d hd

/-- A link whose key is already stored inserts nothing. -/
theorem saveLink_noop (env : Crawler.CrawlEnv) (cfg : Crawler.CrawlerConfig)
    (rs : List Crawler.RecipeRow) (l : String)
    (h : ∀ d, Crawler.crawlRecipeAt env l cfg.selectors = some d →
      Crawler.hasKey rs d.title cfg.siteName = true) :
    Crawler.saveLink env cfg rs l = rs := by
  cases hc : Crawler.crawlRecipeAt env l cfg.selectors with
  | none => simp [Crawler.saveLink, hc]
  | some d => simp [Crawler.saveLink, hc, h d hc]

/-- A link loop over links whose keys are all stored inserts nothing. -/
theorem foldl_saveLink_noop (env : Crawler.CrawlEnv) (cfg : Crawler.CrawlerConfig) :
    ∀ (links : List String) (rs : List Crawler.RecipeRow),
      (∀ l ∈ links, ∀ d, Crawler.crawlRecipeAt env l cfg.selectors = some d →
        Crawler.hasKey rs d.title cfg.siteName = true) →
      links.foldl (Crawler.saveLink env cfg) rs = rs := by
  intro links
  induction links with
  | nil => intro rs _; rfl
  | cons x xs ih =>
    intro rs h
    rw [List.foldl_cons, saveLink_noop env cfg rs x (h x (List.mem_cons_self _ _))]
    exact ih rs (fun l hl => h l (List.mem_cons_of_mem _ hl))

/-- A site pass only appends rows. -/
theorem siteRecipes_grows (env : Crawler.CrawlEnv) (rs : List Crawler.RecipeRow)
    (cfg : Crawler.CrawlerConfig) : ∃ t, Crawler.siteRecipes env rs cfg = rs ++ t :=
  foldl_saveLink_grows env cfg (Crawler.siteLinks env cfg) rs

/-- Saturation survives appending rows. -/
theorem siteSaturated_append {env : Crawler.CrawlEnv} {cfg : Crawler.CrawlerConfig}
    {rs : List Crawler.RecipeRow} (t : List Crawler.RecipeRow)
    (h : Crawler.siteSaturated env cfg rs) : Crawler.siteSaturated env cfg (rs ++ t) :=
  fun link hl d hd => hasKey_append (h link hl d hd)

/-- After a site pass, that site is saturated. -/
theorem siteRecipes_saturates (env : Crawler.CrawlEnv) (rs : List Crawler.RecipeRow)
    (cfg : Crawler.CrawlerConfig) :
    Crawler.siteSaturated env cfg (Crawler.siteRecipes env rs cfg) :=
  fun link hl d hd => foldl_saveLink_establishes env cfg (Crawler.siteLinks env cfg) rs link hl d hd

/-- A site pass over a saturated store inserts nothing. -/
theorem siteRecipes_noop {env : Crawler.CrawlEnv} {rs : List Crawler.RecipeRow}
    {cfg : Crawler.CrawlerConfig} (h : Crawler.siteSaturated env cfg rs) :
    Crawler.siteRecipes env rs cfg = rs :=
  foldl_saveLink_noop env cfg (Crawler.siteLinks env cfg) rs h

/-- A whole run only appends rows. -/
theorem runRecipes_grows (env : Crawler.CrawlEnv) :
    ∀ (cfgs : List Crawler.CrawlerConfig) (rs : List Crawler.RecipeRow),
      ∃ t, Crawler.runRecipes env rs cfgs = rs ++ t := by
  intro cfgs
  induction cfgs with
  | nil => intro rs; exact ⟨[], by simp [Crawler.runRecipes]⟩
  | cons c cs ih =>
    intro rs
    obtain ⟨t2, h2⟩ := ih (Crawler.siteRecipes env rs c)
    obtain ⟨t1, h1⟩ := siteRecipes_grows env rs c
    refine ⟨t1 ++ t2, ?_⟩
    have hstep : Crawler.runRecipes env rs (c :: cs) =
        Crawler.runRecipes env (Crawler.siteRecipes env rs c) cs := rfl
    rw [hstep, h2, h1, List.append_assoc]

/-- After a whole run, every processed site is saturated. -/
theorem runRecipes_saturates (env : Crawler.CrawlEnv) :
    ∀ (cfgs : List Crawler.CrawlerConfig) (rs : List Crawler.RecipeRow)
      (cfg : Crawler.CrawlerConfig), cfg ∈ cfgs →
      Crawler.siteSaturated env cfg (Crawler.runRecipes env rs cfgs) := by
  intro cfgs
  induction cfgs with
  | nil => intro rs cfg hc; exact absurd hc (List.not_mem_nil cfg)
  | cons c cs ih =>
    intro rs cfg hc
    have hstep : Crawler.runRecipes env rs (c :: cs) =
        Crawler.runRecipes env (Crawler.siteRecipes env rs c) cs := rfl
    rw [hstep]
    rcases List.mem_cons.mp hc with rfl | hmem
    · obtain ⟨t, ht⟩ := runRecipes_grows env cs (Crawler.siteRecipes env rs cfg)
      rw [ht]
      exact siteSaturated_append t (siteRecipes_saturates env rs cfg)
    · exact ih (Crawler.siteRecipes env rs c) cfg hmem

/-- A run over sites that are all saturated inserts nothing. -/
theorem runRecipes_noop (env : Crawler.CrawlEnv) :
    ∀ (cfgs : List Crawler.CrawlerConfig) (rs : List Crawler.RecipeRow),
      (∀ cfg ∈ cfgs, Crawler.siteSaturated env cfg rs) →
      Crawler.runRecipes env rs cfgs = rs := by
  intro cfgs
  induction cfgs with
  | nil => intro rs _; rfl
  | cons c cs ih =>
    intro rs h
    have hstep : Crawler.runRecipes env rs (c :: cs) =
        Crawler.runRecipes env (Crawler.siteRecipes env rs c) cs := rfl
    rw [hstep, siteRecipes_noop (h c (List.mem_cons_self _ _))]
    exact ih rs (fun cfg hc => h cfg (List.mem_cons_of_mem _ hc))

/-- The recipe component of one site iteration is `siteRecipes` whether
or not the listing fetch succeeded (on failure both sides are the
untouched store). -/
theorem processSite_recipes (env : Crawler.CrawlEnv) (st : Crawler.DB)
    (cfg : Crawler.CrawlerConfig) :
    (Crawler.processSite env st cfg).recipes = Crawler.siteRecipes env st.recipes cfg := by
  cases h : env.listingAnchors cfg.siteUrl with
  | none => simp [Crawler.processSite, h, Crawler.siteRecipes, Crawler.siteLinks]
  | some doc => simp [Crawler.processSite, h]

/-- The recipe component of the whole per-site fold is `runRecipes`. -/
theorem foldl_processSite_recipes (env : Crawler.CrawlEnv) :
    ∀ (cfgs : List Crawler.CrawlerConfig) (st : Crawler.DB),
      (cfgs.foldl (Crawler.processSite env) st).recipes = Crawler.runRecipes env st.recipes cfgs := by
  intro cfgs
  induction cfgs with
  | nil => intro st; rfl
  | cons c cs ih =>
    intro st
    rw [List.foldl_cons, ih, processSite_recipes]
    rfl

/-- `sameCore` is reflexive. -/
theorem sameCore_refl (c : Crawler.CrawlerConfig) : Crawler.sameCore c c :=
  ⟨rfl, rfl, rfl, rfl, rfl⟩

/-- `sameCore` composes. -/
theorem sameCore_trans {a b c : Crawler.CrawlerConfig}
    (h1 : Crawler.sameCore a b) (h2 : Crawler.sameCore b c) : Crawler.sameCore a c := by
  obtain ⟨i1, n1, u1, s1, e1⟩ := h1
  obtain ⟨i2, n2, u2, s2, e2⟩ := h2
  exact ⟨i2.trans i1, n2.trans n1, u2.trans u1, s2.trans s1, e2.trans e1⟩

/-- Pointwise `sameCore` between a configuration list and itself. -/
theorem forall₂_sameCore_refl :
    ∀ l : List Crawler.CrawlerConfig, List.Forall₂ Crawler.sameCore l l := by
  intro l
  induction l with
  | nil => exact List.Forall₂.nil
  | cons c cs ih => exact List.Forall₂.cons (sameCore_refl c) ih

/-- Pointwise `sameCore` composes. -/
theorem forall₂_sameCore_trans :
    ∀ {l1 l2 l3 : List Crawler.CrawlerConfig}, List.Forall₂ Crawler.sameCore l1 l2 →
      List.Forall₂ Crawler.sameCore l2 l3 → List.Forall₂ Crawler.sameCore l1 l3 := by
  intro l1 l2 l3 h1 h2
  induction h1 generalizing l3 with
  | nil =>
    cases h2
    exact List.Forall₂.nil
  | cons hab h1' ih =>
    cases h2 with
    | cons hbc h2' => exact List.Forall₂.cons (sameCore_trans hab hbc) (ih h2')

/-- The timestamp update of one site iteration only changes `lastCrawl`
fields. -/
theorem forall₂_sameCore_map_update (env : Crawler.CrawlEnv) (cfg : Crawler.CrawlerConfig) :
    ∀ l : List Crawler.CrawlerConfig,
      List.Forall₂ Crawler.sameCore l
        (l.map (fun c => if c.id = cfg.id then { c with lastCrawl := some env.now } else c)) := by
  intro l
  induction l with
  | nil => exact List.Forall₂.nil
  | cons c cs ih =>
    rw [List.map_cons]
    refine List.Forall₂.cons ?_ ih
    by_cases hid : c.id = cfg.id
    · rw [if_pos hid]
      exact ⟨rfl, rfl, rfl, rfl, rfl⟩
    · rw [if_neg hid]
      exact sameCore_refl c

/-- One site iteration preserves every configuration's core fields. -/
theorem processSite_configs (env : Crawler.CrawlEnv) (st : Crawler.DB)
    (cfg : Crawler.CrawlerConfig) :
    List.Forall₂ Crawler.sameCore st.configs (Crawler.processSite env st cfg).configs := by
  cases h : env.listingAnchors cfg.siteUrl with
  | none =>
    have hst : Crawler.processSite env st cfg = st := by simp [Crawler.processSite, h]
    rw [hst]
    exact forall₂_sameCore_refl _
  | some doc =>
    have hst : (Crawler.processSite env st cfg).configs =
        st.configs.map (fun c => if c.id = cfg.id then { c with lastCrawl := some env.now } else c) := by
      simp [Crawler.processSite, h]
    rw [hst]
    exact forall₂_sameCore_map_update env cfg st.configs

/-- A whole run preserves every configuration's core fields. -/
theorem foldl_processSite_configs (env : Crawler.CrawlEnv) :
    ∀ (cfgs : List Crawler.CrawlerConfig) (st : Crawler.DB),
      List.Forall₂ Crawler.sameCore st.configs ((cfgs.foldl (Crawler.processSite env) st).configs) := by
  intro cfgs
  induction cfgs with
  | nil => intro st; exact forall₂_sameCore_refl _
  | cons c cs ih =>
    intro st
    rw [List.foldl_cons]
    exact forall₂_sameCore_trans (processSite_configs env st c) (ih (Crawler.processSite env st c))

/-- Filtering by `enabled` respects pointwise `sameCore`. -/
theorem forall₂_sameCore_filter :
    ∀ {l1 l2 : List Crawler.CrawlerConfig}, List.Forall₂ Crawler.sameCore l1 l2 →
      List.Forall₂ Crawler.sameCore (l1.filter (fun c => c.enabled))
        (l2.filter (fun c => c.enabled)) := by
  intro l1 l2 h
  induction h with
  | nil => exact List.Forall₂.nil
  | @cons a b l1' l2' hab h ih =>
    rw [List.filter_cons, List.filter_cons]
    by_cases he : a.enabled = true
    · have he2 : b.enabled = true := hab.2.2.2.2.trans he
      rw [if_pos (by simpa using he), if_pos (by simpa using he2)]
      exact List.Forall₂.cons hab ih
    · have he2 : ¬(b.enabled = true) := fun hb => he (hab.2.2.2.2.symm.trans hb)
      rw [if_neg (by simpa using he), if_neg (by simpa using he2)]
      exact ih

/-- A site pass reads only the core fields of its configuration. -/
theorem siteRecipes_sameCore (env : Crawler.CrawlEnv) (rs : List Crawler.RecipeRow)
    {c c' : Crawler.CrawlerConfig} (h : Crawler.sameCore c c') :
    Crawler.siteRecipes env rs c' = Crawler.siteRecipes env rs c := by
  obtain ⟨hid, hname, hurl, hsel, hen⟩ := h
  have hlinks : Crawler.siteLinks env c' = Crawler.siteLinks env c := by
    unfold Crawler.siteLinks
    rw [hurl, hsel]
  have hsave : Crawler.saveLink env c' = Crawler.saveLink env c := by
    funext rs' l
    unfold Crawler.saveLink Crawler.crawlRecipeAt
    rw [hsel, hname]
  unfold Crawler.siteRecipes
  rw [hlinks, hsave]

/-- A run's inserted recipes depend on the configurations only through
their core fields. -/
theorem runRecipes_sameCore (env : Crawler.CrawlEnv) :
    ∀ {cfgs cfgs' : List Crawler.CrawlerConfig}, List.Forall₂ Crawler.sameCore cfgs cfgs' →
      ∀ rs, Crawler.runRecipes env rs cfgs' = Crawler.runRecipes env rs cfgs := by
  intro cfgs cfgs' h
  induction h with
  | nil => intro rs; rfl
  | @cons a b l1 l2 hab h ih =>
    intro rs
    have h1 : Crawler.runRecipes env rs (b :: l2) =
        Crawler.runRecipes env (Crawler.siteRecipes env rs b) l2 := rfl
    have h2 : Crawler.runRecipes env rs (a :: l1) =
        Crawler.runRecipes env (Crawler.siteRecipes env rs a) l1 := rfl
    rw [h1, h2, siteRecipes_sameCore env rs hab, ih]

/-- An absent dedup key means no stored row carries it. -/
theorem hasKey_eq_false_iff {rs : List Crawler.RecipeRow} {t sn : String} :
    Crawler.hasKey rs t sn = false ↔ ∀ r ∈ rs, ¬(r.title = t ∧ r.sourceName = sn) := by
  unfold Crawler.hasKey
  rw [List.any_eq_false]
  constructor
  · intro h r hr hc
    exact h r hr (by simp [hc.1, hc.2])
  · intro h r hr hc
    simp only [Bool.and_eq_true, beq_iff_eq] at hc
    exact h r hr hc

/-- One link step preserves dedup-key uniqueness. -/
theorem saveLink_unique (env : Crawler.CrawlEnv) (cfg : Crawler.CrawlerConfig)
    (rs : List Crawler.RecipeRow) (l : String) (h : Crawler.uniqueKeys rs) :
    Crawler.uniqueKeys (Crawler.saveLink env cfg rs l) := by
  cases hc : Crawler.crawlRecipeAt env l cfg.selectors with
  | none =>
    have hrw : Crawler.saveLink env cfg rs l = rs := by simp [Crawler.saveLink, hc]
    rw [hrw]
    exact h
  | some d =>
    by_cases hk : Crawler.hasKey rs d.title cfg.siteName = true
    · have hrw : Crawler.saveLink env cfg rs l = rs := by simp [Crawler.saveLink, hc, hk]
      rw [hrw]
      exact h
    · have hkf : Crawler.hasKey rs d.title cfg.siteName = false := by
        cases hkk : Crawler.hasKey rs d.title cfg.siteName with
        | false => rfl
        | true => exact absurd hkk hk
      have hrw : Crawler.saveLink env cfg rs l = rs ++ [Crawler.mkRow d cfg.siteName] := by
        simp [Crawler.saveLink, hc, hk]
      rw [hrw]
      unfold Crawler.uniqueKeys at h ⊢
      rw [List.pairwise_append]
      refine ⟨h, List.pairwise_singleton _ _, ?_⟩
      intro a ha b hb
      rw [List.mem_singleton] at hb
      subst hb
      have hkey := hasKey_eq_false_iff.mp hkf a ha
      simpa [Crawler.mkRow] using hkey

/-- The link loop preserves dedup-key uniqueness. -/
theorem foldl_saveLink_unique (env : Crawler.CrawlEnv) (cfg : Crawler.CrawlerConfig) :
    ∀ (links : List String) (rs : List Crawler.RecipeRow),
      Crawler.uniqueKeys rs → Crawler.uniqueKeys (links.foldl (Crawler.saveLink env cfg) rs) := by
  intro links
  induction links with
  | nil => intro rs h; exact h
  | cons x xs ih =>
    intro rs h
    rw [List.foldl_cons]
    exact ih _ (saveLink_unique env cfg rs x h)

/-- A whole run preserves dedup-key uniqueness. -/
theorem runRecipes_unique (env : Crawler.CrawlEnv) :
    ∀ (cfgs : List Crawler.CrawlerConfig) (rs : List Crawler.RecipeRow),
      Crawler.uniqueKeys rs → Crawler.uniqueKeys (Crawler.runRecipes env rs cfgs) := by
  intro cfgs
  induction cfgs with
  | nil => intro rs h; exact h
  | cons c cs ih =>
    intro rs h
    have hstep : Crawler.runRecipes env rs (c :: cs) =
        Crawler.runRecipes env (Crawler.siteRecipes env rs c) cs := rfl
    rw [hstep]
    exact ih _ (foldl_saveLink_unique env c (Crawler.siteLinks env c) rs h)

/-- C2: the orchestrator checks the `(title, sourceName)` dedup key
before every insert and skips duplicates, so a run preserves the
uniqueness invariant of the recipe store, and a second run over
unchanged listing and detail inputs inserts zero new records. -/
theorem C2_dedup_key (env : Crawler.CrawlEnv) (st : Crawler.DB) :
    (Crawler.uniqueKeys st.recipes → Crawler.uniqueKeys (Crawler.runCrawler env st).recipes) ∧
    (Crawler.runCrawler env (Crawler.runCrawler env st)).recipes =
      (Crawler.runCrawler env st).recipes := by
  have hrec1 : (Crawler.runCrawler env st).recipes =
      Crawler.runRecipes env st.recipes (st.configs.filter (fun c => c.enabled)) :=
    foldl_processSite_recipes env (st.configs.filter (fun c => c.enabled)) st
  constructor
  · intro hu
    rw [hrec1]
    exact runRecipes_unique env _ _ hu
  · have hcfg : List.Forall₂ Crawler.sameCore st.configs (Crawler.runCrawler env st).configs :=
      foldl_processSite_configs env (st.configs.filter (fun c => c.enabled)) st
    have hfil := forall₂_sameCore_filter hcfg
    have h2 : (Crawler.runCrawler env (Crawler.runCrawler env st)).recipes =
        Crawler.runRecipes env (Crawler.runCrawler env st).recipes
          ((Crawler.runCrawler env st).configs.filter (fun c => c.enabled)) :=
      foldl_processSite_recipes env _ _
    rw [h2, runRecipes_sameCore env hfil, hrec1]
    exact runRecipes_noop env _ _
      (fun cfg hc => runRecipes_saturates env _ st.recipes cfg hc)

/-- Witness for C2: on a one-site world that inserts one recipe, the
run's output is duplicate-free and a second run inserts nothing. -/
theorem C2_witness :
    Crawler.uniqueKeys (Crawler.runCrawler envW ⟨[], [cfgW]⟩).recipes ∧
    (Crawler.runCrawler envW (Crawler.runCrawler envW ⟨[], [cfgW]⟩)).recipes =
      (Crawler.runCrawler envW ⟨[], [cfgW]⟩).recipes :=
  ⟨(C2_dedup_key envW ⟨[], [cfgW]⟩).1 List.Pairwise.nil, (C2_dedup_key envW ⟨[], [cfgW]⟩).2⟩

/-- C3 (amended): with two enabled sites of which the first's listing
fetch terminally fails, the run completes and equals processing the
reachable site alone — its recipes are still inserted — but the
unreachable site's configuration row, `lastCrawl` included, is left
untouched (the timestamp update is NOT reached for it). -/
theorem C3_site_isolation (env : Crawler.CrawlEnv) (st : Crawler.DB)
    (a b : Crawler.CrawlerConfig)
    (hcfg : st.configs.filter (fun c => c.enabled) = [a, b])
    (hfail : env.listingAnchors a.siteUrl = none) :
    Crawler.runCrawler env st = Crawler.processSite env st b ∧
    (Crawler.runCrawler env st).recipes = Crawler.siteRecipes env st.recipes b ∧
    (a.id ≠ b.id → ∀ c ∈ st.configs, c.id = a.id → c ∈ (Crawler.runCrawler env st).configs) := by
  have hskip : Crawler.processSite env st a = st := by
    simp [Crawler.processSite, hfail]
  have h1 : Crawler.runCrawler env st = Crawler.processSite env st b := by
    unfold Crawler.runCrawler
    rw [hcfg, List.foldl_cons, hskip, List.foldl_cons]
    rfl
  refine ⟨h1, ?_, ?_⟩
  · rw [h1]
    exact processSite_recipes env st b
  · intro hne c hc hcid
    rw [h1]
    cases hb : env.listingAnchors b.siteUrl with
    | none =>
      have hstb : Crawler.processSite env st b = st := by simp [Crawler.processSite, hb]
      rw [hstb]
      exact hc
    | some doc =>
      have hstb : (Crawler.processSite env st b).configs =
          st.configs.map (fun x => if x.id = b.id then { x with lastCrawl := some env.now } else x) := by
        simp [Crawler.processSite, hb]
      rw [hstb]
      refine List.mem_map.mpr ⟨c, hc, ?_⟩
      rw [if_neg (by rw [hcid]; exact hne)]

/-- Witness for C3 (amended) at the concrete two-site world `envC`. -/
theorem C3_witness :
    Crawler.runCrawler envC ⟨[], [caW, cbW]⟩ = Crawler.processSite envC ⟨[], [caW, cbW]⟩ cbW ∧
    caW ∈ (Crawler.runCrawler envC ⟨[], [caW, cbW]⟩).configs := by
  have h := C3_site_isolation envC ⟨[], [caW, cbW]⟩ caW cbW (by decide) rfl
  exact ⟨h.1, h.2.2 (by decide) caW (by decide) rfl⟩

/-- Counterexample to C3 as stated: in the same concrete world the run
completes and the reachable site B inserts its recipe and gets its
`lastCrawl` set to the run time, but the unreachable site A's
`lastCrawl` is NOT updated to the run time — it stays `none`. -/
theorem C3_counterexample :
    caW.enabled = true ∧ cbW.enabled = true ∧
    (envC.listingAnchors caW.siteUrl).isSome = false ∧
    (envC.listingAnchors cbW.siteUrl).isSome = true ∧
    (Crawler.runCrawler envC ⟨[], [caW, cbW]⟩).recipes ≠ [] ∧
    (Crawler.runCrawler envC ⟨[], [caW, cbW]⟩).configs.map (fun c => c.lastCrawl) =
      [none, some 99] ∧
    ¬((Crawler.runCrawler envC ⟨[], [caW, cbW]⟩).configs.map (fun c => c.lastCrawl) =
      [some envC.now, some envC.now]) := by
  decide
